import Mathlib

/-!
Verification development for the video-server room presence registry
(source: src/index.ts).

The model is a shallow embedding of the signaling server's room registry
and its three socket event handlers (video:join, video:leave, disconnect).
Strings are modelled as lists of characters; JavaScript's string `trim`
and `toUpperCase` are modelled over that representation (case mapping is
modelled on the ASCII range, which is where `Char.toUpper` acts).
JavaScript `Map`s are modelled as association lists preserving insertion
order, with `set` replacing an existing key in place, as `Map.prototype.set`
does.
-/

namespace VideoServer

/-- Strings as lists of characters. -/
abbrev Str := List Char

/-- Conversion from Lean string literals to the model's string type. -/
def str (s : String) : Str := s.data

/-- Whitespace predicate used by JavaScript's `String.prototype.trim`
(ASCII whitespace plus NBSP, LS, PS and BOM; exotic Unicode space
classes are not needed by any claim). -/
def isWs (c : Char) : Bool :=
  c.toNat == 9 || c.toNat == 10 || c.toNat == 11 || c.toNat == 12 ||
  c.toNat == 13 || c.toNat == 32 || c.toNat == 160 || c.toNat == 8232 ||
  c.toNat == 8233 || c.toNat == 65279

/-- Model of `String.prototype.trim`: drop whitespace from both ends. -/
def jsTrim (l : Str) : Str := List.rdropWhile isWs (List.dropWhile isWs l)

/-- Model of `String.prototype.toUpperCase` (ASCII case mapping). -/
def jsToUpper (l : Str) : Str := l.map Char.toUpper

/-- `normRoomId` from src/index.ts: `String(id || "").trim().toUpperCase()`. -/
def normRoomId (s : Str) : Str := jsToUpper (jsTrim s)

theorem toNat_ofNat_of_le (n : Nat) (h1 : 65 ≤ n) (h2 : n ≤ 90) :
    (Char.ofNat n).toNat = n := by
  interval_cases n <;> decide

theorem toUpper_eq_self_of (c : Char) (h : ¬(c.toNat ≥ 97 ∧ c.toNat ≤ 122)) :
    c.toUpper = c := by
  unfold Char.toUpper
  exact if_neg h

theorem toNat_toUpper_of (c : Char) (h : c.toNat ≥ 97 ∧ c.toNat ≤ 122) :
    c.toUpper.toNat = c.toNat - 32 := by
  unfold Char.toUpper
  rw [if_pos h]
  exact toNat_ofNat_of_le _ (by omega) (by omega)

theorem toUpper_toUpper (c : Char) : c.toUpper.toUpper = c.toUpper := by
  by_cases h : c.toNat ≥ 97 ∧ c.toNat ≤ 122
  · have h1 := toNat_toUpper_of c h
    exact toUpper_eq_self_of _ (by omega)
  · rw [toUpper_eq_self_of c h, toUpper_eq_self_of c h]

theorem isWs_toUpper (c : Char) : isWs c.toUpper = isWs c := by
  by_cases h : c.toNat ≥ 97 ∧ c.toNat ≤ 122
  · have h1 := toNat_toUpper_of c h
    have h2 : isWs c.toUpper = false := by
      simp only [isWs, Bool.or_eq_false_iff, beq_eq_false_iff_ne, ne_eq, h1]
      omega
    have h3 : isWs c = false := by
      simp only [isWs, Bool.or_eq_false_iff, beq_eq_false_iff_ne, ne_eq]
      omega
    rw [h2, h3]
  · rw [toUpper_eq_self_of c h]

theorem dropWhile_eq_self_of {α : Type} (p : α → Bool) (l : List α)
    (h : ∀ hne : l ≠ [], p (l.head hne) = false) : l.dropWhile p = l := by
  cases l with
  | nil => rfl
  | cons a t =>
    have ha := h (by simp)
    simp only [List.head_cons] at ha
    simp [List.dropWhile_cons, ha]

theorem jsTrim_idem (l : Str) : jsTrim (jsTrim l) = jsTrim l := by
  unfold jsTrim
  have h1 : List.dropWhile isWs (List.rdropWhile isWs (List.dropWhile isWs l)) =
      List.rdropWhile isWs (List.dropWhile isWs l) := by
    apply dropWhile_eq_self_of
    intro hne
    have hpre := List.rdropWhile_prefix isWs (List.dropWhile isWs l)
    rw [hpre.head hne]
    exact List.head_dropWhile_not isWs l _
  rw [h1]
  exact List.rdropWhile_idempotent isWs _

theorem jsTrim_jsToUpper (l : Str) : jsTrim (jsToUpper l) = jsToUpper (jsTrim l) := by
  have hfun : (isWs ∘ Char.toUpper) = isWs := funext isWs_toUpper
  unfold jsTrim jsToUpper List.rdropWhile
  rw [List.dropWhile_map, hfun, ← List.map_reverse, List.dropWhile_map, hfun,
    ← List.map_reverse]

theorem jsToUpper_idem (l : Str) : jsToUpper (jsToUpper l) = jsToUpper l := by
  have hfun : (Char.toUpper ∘ Char.toUpper) = Char.toUpper := funext toUpper_toUpper
  unfold jsToUpper
  rw [List.map_map, hfun]

theorem normRoomId_idem (s : Str) : normRoomId (normRoomId s) = normRoomId s := by
  unfold normRoomId
  rw [jsTrim_jsToUpper, jsTrim_idem, jsToUpper_idem]

/-! ### JavaScript `Map` model: association lists with insertion-order `set` -/

/-- `Map.prototype.get`: value of the first entry with the given key. -/
def mapGet {α : Type} (m : List (Str × α)) (k : Str) : Option α :=
  match m with
  | [] => none
  | (k', v) :: t => if k' = k then some v else mapGet t k

/-- `Map.prototype.set`: replace the entry with the given key in place,
or append a new entry at the end. -/
def mapSet {α : Type} (m : List (Str × α)) (k : Str) (v : α) : List (Str × α) :=
  match m with
  | [] => [(k, v)]
  | (k', v') :: t => if k' = k then (k, v) :: t else (k', v') :: mapSet t k v

/-- `Map.prototype.delete`: remove the entry with the given key. -/
def mapDelete {α : Type} (m : List (Str × α)) (k : Str) : List (Str × α) :=
  match m with
  | [] => []
  | (k', v') :: t => if k' = k then t else (k', v') :: mapDelete t k

/-- The keys of an association list. -/
def keys {α : Type} (m : List (Str × α)) : List Str := m.map Prod.fst

theorem keys_cons {α : Type} (p : Str × α) (t : List (Str × α)) :
    keys (p :: t) = p.1 :: keys t := rfl

theorem mapGet_mem {α : Type} {m : List (Str × α)} {k : Str} {v : α}
    (h : mapGet m k = some v) : (k, v) ∈ m := by
  induction m with
  | nil => simp [mapGet] at h
  | cons p t ih =>
    obtain ⟨k', v'⟩ := p
    by_cases hk : k' = k
    · subst hk
      simp [mapGet] at h
      subst h
      exact List.mem_cons_self _ _
    · simp only [mapGet, if_neg hk] at h
      exact List.mem_cons_of_mem _ (ih h)

theorem mapGet_mapSet_self {α : Type} (m : List (Str × α)) (k : Str) (v : α) :
    mapGet (mapSet m k v) k = some v := by
  induction m with
  | nil => simp [mapSet, mapGet]
  | cons p t ih =>
    obtain ⟨k', v'⟩ := p
    by_cases hk : k' = k
    · simp [mapSet, mapGet, hk]
    · simp [mapSet, mapGet, hk, ih]

theorem mapGet_mapSet_ne {α : Type} (m : List (Str × α)) {k k' : Str} (v : α)
    (h : k' ≠ k) : mapGet (mapSet m k v) k' = mapGet m k' := by
  induction m with
  | nil => simp [mapSet, mapGet, Ne.symm h]
  | cons p t ih =>
    obtain ⟨k0, v0⟩ := p
    by_cases hk : k0 = k
    · subst hk
      simp [mapSet, mapGet, Ne.symm h]
    · simp only [mapSet, if_neg hk, mapGet, ih]

theorem mapSet_ne_nil {α : Type} (m : List (Str × α)) (k : Str) (v : α) :
    mapSet m k v ≠ [] := by
  cases m with
  | nil => simp [mapSet]
  | cons p t =>
    obtain ⟨k', v'⟩ := p
    by_cases hk : k' = k <;> simp [mapSet, hk]

theorem mem_mapSet {α : Type} {m : List (Str × α)} {k : Str} {v : α} {p : Str × α}
    (h : p ∈ mapSet m k v) : p ∈ m ∨ p = (k, v) := by
  induction m with
  | nil => simp [mapSet] at h; simp [h]
  | cons q t ih =>
    obtain ⟨k', v'⟩ := q
    by_cases hk : k' = k
    · simp only [mapSet, if_pos hk, List.mem_cons] at h
      rcases h with h | h
      · right; exact h
      · left; exact List.mem_cons_of_mem _ h
    · simp only [mapSet, if_neg hk, List.mem_cons] at h
      rcases h with h | h
      · left; simp [h]
      · rcases ih h with h' | h'
        · left; exact List.mem_cons_of_mem _ h'
        · right; exact h'

theorem mem_mapDelete {α : Type} {m : List (Str × α)} {k : Str} {p : Str × α}
    (h : p ∈ mapDelete m k) : p ∈ m := by
  induction m with
  | nil => simp [mapDelete] at h
  | cons q t ih =>
    obtain ⟨k', v'⟩ := q
    by_cases hk : k' = k
    · simp only [mapDelete, if_pos hk] at h
      exact List.mem_cons_of_mem _ h
    · simp only [mapDelete, if_neg hk, List.mem_cons] at h
      rcases h with h | h
      · simp [h]
      · exact List.mem_cons_of_mem _ (ih h)

theorem keys_mapSet_of_mem {α : Type} {m : List (Str × α)} {k : Str} (v : α)
    (h : k ∈ keys m) : keys (mapSet m k v) = keys m := by
  induction m with
  | nil => simp [keys] at h
  | cons q t ih =>
    obtain ⟨k', v'⟩ := q
    by_cases hk : k' = k
    · simp [mapSet, keys, hk]
    · have hmem : k ∈ keys t := by
        simp only [keys, List.map_cons, List.mem_cons] at h
        rcases h with h | h
        · exact absurd h.symm hk
        · exact h
      simp [mapSet, keys, hk]
      exact ih hmem

theorem keys_mapSet_of_not_mem {α : Type} {m : List (Str × α)} {k : Str} (v : α)
    (h : k ∉ keys m) : keys (mapSet m k v) = keys m ++ [k] := by
  induction m with
  | nil => simp [mapSet, keys]
  | cons q t ih =>
    obtain ⟨k', v'⟩ := q
    have hk : k' ≠ k := by
      intro he
      subst he
      exact h (List.mem_cons_self k' (keys t))
    have ht : k ∉ keys t := by
      intro hm
      exact h (List.mem_cons_of_mem _ hm)
    simp only [mapSet, if_neg hk, keys_cons, ih ht, List.cons_append]

theorem length_mapSet_of_mem {α : Type} {m : List (Str × α)} {k : Str} (v : α)
    (h : k ∈ keys m) : (mapSet m k v).length = m.length := by
  have h1 : (keys (mapSet m k v)).length = (keys m).length := by
    rw [keys_mapSet_of_mem v h]
  simpa [keys] using h1

theorem nodup_keys_mapSet {α : Type} {m : List (Str × α)} (k : Str) (v : α)
    (h : (keys m).Nodup) : (keys (mapSet m k v)).Nodup := by
  by_cases hk : k ∈ keys m
  · rw [keys_mapSet_of_mem v hk]; exact h
  · rw [keys_mapSet_of_not_mem v hk]
    simpa [List.nodup_append] using ⟨h, hk⟩

theorem keys_mapDelete {α : Type} (m : List (Str × α)) (k : Str) :
    keys (mapDelete m k) = (keys m).erase k := by
  induction m with
  | nil => simp [mapDelete, keys]
  | cons q t ih =>
    obtain ⟨k', v'⟩ := q
    by_cases hk : k' = k
    · subst hk
      simp [mapDelete, keys_cons, List.erase_cons]
    · simp [mapDelete, hk, keys_cons, List.erase_cons, ih]

theorem mapGet_eq_none_iff {α : Type} (m : List (Str × α)) (k : Str) :
    mapGet m k = none ↔ k ∉ keys m := by
  induction m with
  | nil => simp [mapGet, keys]
  | cons q t ih =>
    obtain ⟨k', v'⟩ := q
    by_cases hk : k' = k
    · subst hk
      simp [mapGet, keys_cons]
    · simp [mapGet, hk, keys_cons, ih, Ne.symm hk]

theorem mapDelete_of_not_mem {α : Type} {m : List (Str × α)} {k : Str}
    (h : k ∉ keys m) : mapDelete m k = m := by
  induction m with
  | nil => rfl
  | cons q t ih =>
    obtain ⟨k', v'⟩ := q
    have hk : k' ≠ k := by
      intro he
      subst he
      exact h (List.mem_cons_self k' (keys t))
    have ht : k ∉ keys t := by
      intro hm
      exact h (List.mem_cons_of_mem _ hm)
    simp [mapDelete, hk, ih ht]

theorem mapGet_mapDelete_self {α : Type} {m : List (Str × α)} (k : Str)
    (h : (keys m).Nodup) : mapGet (mapDelete m k) k = none := by
  rw [mapGet_eq_none_iff, keys_mapDelete]
  exact h.not_mem_erase

theorem mapSet_of_get_eq {α : Type} {m : List (Str × α)} {k : Str} {v : α}
    (h : mapGet m k = some v) : mapSet m k v = m := by
  induction m with
  | nil => simp [mapGet] at h
  | cons q t ih =>
    obtain ⟨k', v'⟩ := q
    by_cases hk : k' = k
    · subst hk
      simp [mapGet] at h
      simp [mapSet, h]
    · simp only [mapGet, if_neg hk] at h
      simp [mapSet, hk, ih h]

/-! ### Server model: state, events and the three socket handlers -/

/-- `VideoUser` from src/index.ts: `{ uid, name, peerId }`. -/
structure VideoUser where
  uid : Str
  name : Str
  peerId : Str
deriving DecidableEq

/-- A room is a `Map<uid, VideoUser>`. -/
abbrev RoomMap := List (Str × VideoUser)

/-- The registry is a `Map<roomId, Map<uid, VideoUser>>` (`rooms` in the source). -/
abbrev RoomsMap := List (Str × RoomMap)

/-- Per-connection state: `socket.data.rid`, `socket.data.uid` (both start
undefined) and the set of transport room groups the socket has joined
(`socket.join` / `socket.leave`). -/
structure Conn where
  dataRid : Option Str
  dataUid : Option Str
  groups : List Str
deriving DecidableEq

def Conn.start : Conn := ⟨none, none, []⟩

/-- Global server state: the `rooms` registry plus every connection's state,
indexed by socket id. -/
structure ServerState where
  rooms : RoomsMap
  conns : Nat → Conn

def initialState : ServerState := ⟨[], fun _ => Conn.start⟩

def setConn (st : ServerState) (sid : Nat) (c : Conn) : ServerState :=
  { st with conns := fun j => if j = sid then c else st.conns j }

/-- `VideoJoinAck` from src/index.ts. -/
inductive VideoJoinAck where
  | ok (peers : List VideoUser)
  | badRequest
deriving DecidableEq

/-- Observable outputs of a handler: the ack sent to the caller, and the
broadcasts `socket.to(rid).emit(...)`, which go to every member of the
transport room group except the sender. -/
inductive Out where
  | ack (sid : Nat) (a : VideoJoinAck)
  | userJoined (rid : Str) (exceptSid : Nat) (uid name peerId : Str)
  | userLeft (rid : Str) (exceptSid : Nat) (uid : Str)
deriving DecidableEq

/-- The display name computed by the join handler:
`String(payload?.name || "").trim() || "Guest"`. -/
def dispName (name0 : Str) : Str :=
  if (jsTrim name0).isEmpty then str "Guest" else jsTrim name0

/-- The `video:join` handler (src/index.ts lines 167-195). Payload fields
are modelled as strings; an absent field arrives as the empty string, which
is what `String(x || "")` produces for it. -/
def handleJoin (st : ServerState) (sid : Nat) (roomId uid0 name0 peerId0 : Str) :
    ServerState × List Out :=
  let rid := normRoomId roomId
  let uid := jsTrim uid0
  let name := dispName name0
  let peerId := jsTrim peerId0
  if rid.isEmpty || uid.isEmpty || peerId.isEmpty then
    (st, [Out.ack sid VideoJoinAck.badRequest])
  else
    let map0 := (mapGet st.rooms rid).getD []
    let map1 := mapSet map0 uid ⟨uid, name, peerId⟩
    let rooms1 := mapSet st.rooms rid map1
    let c := st.conns sid
    let st1 := setConn { st with rooms := rooms1 } sid
      ⟨some rid, some uid, c.groups.insert rid⟩
    let peers := map1.map Prod.snd
    (st1, [Out.ack sid (VideoJoinAck.ok peers), Out.userJoined rid sid uid name peerId])

/-- The `video:leave` handler (src/index.ts lines 200-213). Note that it
does not touch `socket.data`. -/
def handleLeave (st : ServerState) (sid : Nat) (roomId uid0 : Str) :
    ServerState × List Out :=
  let rid := normRoomId roomId
  let uid := jsTrim uid0
  if rid.isEmpty || uid.isEmpty then (st, [])
  else
    match mapGet st.rooms rid with
    | none => (st, [])
    | some map =>
      let map1 := mapDelete map uid
      let rooms1 := if map1.isEmpty then mapDelete st.rooms rid
                    else mapSet st.rooms rid map1
      let c := st.conns sid
      (setConn { st with rooms := rooms1 } sid ⟨c.dataRid, c.dataUid, c.groups.erase rid⟩,
        [Out.userLeft rid sid uid])

/-- The `disconnect` handler (src/index.ts lines 218-230). -/
def handleDisconnect (st : ServerState) (sid : Nat) : ServerState × List Out :=
  match (st.conns sid).dataRid, (st.conns sid).dataUid with
  | some rid, some uid =>
    if rid.isEmpty || uid.isEmpty then (st, [])
    else
      match mapGet st.rooms rid with
      | none => (st, [])
      | some map =>
        let map1 := mapDelete map uid
        let rooms1 := if map1.isEmpty then mapDelete st.rooms rid
                      else mapSet st.rooms rid map1
        ({ st with rooms := rooms1 }, [Out.userLeft rid sid uid])
  | _, _ => (st, [])

/-- Inbound lifecycle events. -/
inductive Event where
  | join (sid : Nat) (roomId uid name peerId : Str)
  | leave (sid : Nat) (roomId uid : Str)
  | disconnect (sid : Nat)

def applyEvent (st : ServerState) : Event → ServerState × List Out
  | .join sid r u n p => handleJoin st sid r u n p
  | .leave sid r u => handleLeave st sid r u
  | .disconnect sid => handleDisconnect st sid

def step (st : ServerState) (e : Event) : ServerState := (applyEvent st e).1

/-- The state reached from the initial state by a sequence of events. -/
def run (es : List Event) : ServerState := es.foldl step initialState

/-! ### Registry invariant over reachable states -/

/-- Invariant of the `rooms` registry: keys are distinct, every stored
roomId is a non-empty fixed point of normalization, every room is
non-empty with distinct member keys, and each member record's `uid` field
equals its key. -/
def InvRooms (rooms : RoomsMap) : Prop :=
  (keys rooms).Nodup ∧
  ∀ p ∈ rooms, normRoomId p.1 = p.1 ∧ p.1.isEmpty = false ∧ p.2.isEmpty = false ∧
    (keys p.2).Nodup ∧ ∀ q ∈ p.2, q.2.uid = q.1

theorem invRooms_nil : InvRooms [] := by
  constructor
  · simp [keys]
  · intro p hp; simp at hp

/-- The registry update shared by the leave and disconnect handlers
preserves the invariant. -/
theorem invRooms_remove {rooms : RoomsMap} {rid uid : Str} {map : RoomMap}
    (h : InvRooms rooms) (hget : mapGet rooms rid = some map) :
    InvRooms (if (mapDelete map uid).isEmpty then mapDelete rooms rid
              else mapSet rooms rid (mapDelete map uid)) := by
  obtain ⟨hnd, hall⟩ := h
  by_cases he : (mapDelete map uid).isEmpty
  · rw [if_pos he]
    constructor
    · rw [keys_mapDelete]
      exact hnd.erase rid
    · intro p hp
      exact hall p (mem_mapDelete hp)
  · rw [if_neg he]
    constructor
    · exact nodup_keys_mapSet rid _ hnd
    · intro p hp
      rcases mem_mapSet hp with hp' | hp'
      · exact hall p hp'
      · subst hp'
        obtain ⟨h1, h2, h3, h4, h5⟩ := hall _ (mapGet_mem hget)
        refine ⟨h1, h2, ?_, ?_, ?_⟩
        · exact Bool.not_eq_true _ ▸ eq_false_of_ne_true he
        · rw [keys_mapDelete]
          exact h4.erase uid
        · intro q hq
          exact h5 q (mem_mapDelete hq)

theorem invRooms_handleJoin (st : ServerState) (sid : Nat)
    (roomId uid0 name0 peerId0 : Str) (h : InvRooms st.rooms) :
    InvRooms (handleJoin st sid roomId uid0 name0 peerId0).1.rooms := by
  unfold handleJoin
  by_cases hg : (normRoomId roomId).isEmpty || (jsTrim uid0).isEmpty ||
      (jsTrim peerId0).isEmpty
  · simp only [hg, if_true]
    exact h
  · simp only [hg, if_false, setConn]
    obtain ⟨hnd, hall⟩ := h
    have hrid : (normRoomId roomId).isEmpty = false := by
      rcases Bool.or_eq_false_iff.mp (eq_false_of_ne_true hg) with ⟨h1, _⟩
      exact Bool.or_eq_false_iff.mp h1 |>.1
    constructor
    · exact nodup_keys_mapSet _ _ hnd
    · intro p hp
      rcases mem_mapSet hp with hp' | hp'
      · exact hall p hp'
      · subst hp'
        refine ⟨normRoomId_idem roomId, hrid, ?_, ?_, ?_⟩
        · exact eq_false_of_ne_true (by
            intro hc
            exact mapSet_ne_nil _ _ _ (List.isEmpty_iff.mp hc))
        · apply nodup_keys_mapSet
          cases hg0 : mapGet st.rooms (normRoomId roomId) with
          | none => simp [hg0, keys]
          | some m0 =>
            obtain ⟨_, _, _, h4, _⟩ := hall _ (mapGet_mem hg0)
            simpa [hg0] using h4
        · intro q hq
          rcases mem_mapSet hq with hq' | hq'
          · cases hg0 : mapGet st.rooms (normRoomId roomId) with
            | none => simp [hg0] at hq'
            | some m0 =>
              obtain ⟨_, _, _, _, h5⟩ := hall _ (mapGet_mem hg0)
              rw [hg0] at hq'
              exact h5 q hq'
          · subst hq'
            rfl

theorem invRooms_handleLeave (st : ServerState) (sid : Nat) (roomId uid0 : Str)
    (h : InvRooms st.rooms) :
    InvRooms (handleLeave st sid roomId uid0).1.rooms := by
  unfold handleLeave
  by_cases hg : (normRoomId roomId).isEmpty || (jsTrim uid0).isEmpty
  · simp only [hg, if_true]
    exact h
  · simp only [hg, if_false]
    cases hg0 : mapGet st.rooms (normRoomId roomId) with
    | none => exact h
    | some map =>
      simp only [setConn]
      exact invRooms_remove h hg0

theorem invRooms_handleDisconnect (st : ServerState) (sid : Nat)
    (h : InvRooms st.rooms) :
    InvRooms (handleDisconnect st sid).1.rooms := by
  unfold handleDisconnect
  cases hr : (st.conns sid).dataRid with
  | none => exact h
  | some rid =>
    cases hu : (st.conns sid).dataUid with
    | none => exact h
    | some uid =>
      by_cases hg : rid.isEmpty || uid.isEmpty
      · simp only [hg, if_true]
        exact h
      · simp only [hg, if_false]
        cases hg0 : mapGet st.rooms rid with
        | none => exact h
        | some map => exact invRooms_remove h hg0

theorem invRooms_step (st : ServerState) (e : Event) (h : InvRooms st.rooms) :
    InvRooms (step st e).rooms := by
  cases e with
  | join sid r u n p => exact invRooms_handleJoin st sid r u n p h
  | leave sid r u => exact invRooms_handleLeave st sid r u h
  | disconnect sid => exact invRooms_handleDisconnect st sid h

theorem invRooms_foldl (es : List Event) (st : ServerState) (h : InvRooms st.rooms) :
    InvRooms (es.foldl step st).rooms := by
  induction es generalizing st with
  | nil => exact h
  | cons e t ih =>
    simp only [List.foldl_cons]
    exact ih _ (invRooms_step st e h)

/-- Every reachable state satisfies the registry invariant. -/
theorem invRooms_run (es : List Event) : InvRooms (run es).rooms :=
  invRooms_foldl es initialState invRooms_nil

/-! ### Claims -/

/-- Claim C8: room id normalization (trim then uppercase) is idempotent, and
it identifies ids differing only in case or surrounding whitespace:
"  abc ", "ABC" and "abc" all normalize to the same room id. -/
theorem normRoomId_idempotent_and_case_insensitive :
    (∀ s : Str, normRoomId (normRoomId s) = normRoomId s) ∧
    normRoomId (str "  abc ") = normRoomId (str "ABC") ∧
    normRoomId (str "ABC") = normRoomId (str "abc") ∧
    normRoomId (str "  abc ") = str "ABC" :=
  ⟨normRoomId_idem, by decide, by decide, by decide⟩

/-- Claim C2: a join whose normalized roomId, trimmed uid or trimmed peerId
is empty is acknowledged with BAD_REQUEST and changes nothing: the returned
state (registry and all connection sessions) is exactly the input state. -/
theorem join_bad_request_no_state_change (st : ServerState) (sid : Nat)
    (roomId uid0 name0 peerId0 : Str)
    (h : (normRoomId roomId).isEmpty = true ∨ (jsTrim uid0).isEmpty = true ∨
      (jsTrim peerId0).isEmpty = true) :
    handleJoin st sid roomId uid0 name0 peerId0 =
      (st, [Out.ack sid VideoJoinAck.badRequest]) := by
  have hg : ((normRoomId roomId).isEmpty || (jsTrim uid0).isEmpty ||
      (jsTrim peerId0).isEmpty) = true := by
    rcases h with h | h | h <;> simp [h]
  simp [handleJoin, hg]

theorem join_bad_request_no_state_change_witness :
    handleJoin initialState 0 (str "ROOM") (str "  ") (str "Ann") (str "p1") =
      (initialState, [Out.ack 0 VideoJoinAck.badRequest]) :=
  join_bad_request_no_state_change initialState 0 (str "ROOM") (str "  ")
    (str "Ann") (str "p1") (Or.inr (Or.inl (by decide)))

/-- Claim C7: a disconnect on a connection whose session is empty (no prior
successful join recorded) does nothing: no broadcast, registry unchanged. -/
theorem disconnect_empty_session_noop (st : ServerState) (sid : Nat)
    (h1 : (st.conns sid).dataRid = none) (h2 : (st.conns sid).dataUid = none) :
    handleDisconnect st sid = (st, []) := by
  unfold handleDisconnect
  rw [h1, h2]

theorem disconnect_empty_session_noop_witness :
    handleDisconnect initialState 5 = (initialState, []) :=
  disconnect_empty_session_noop initialState 5 rfl rfl

/-- Claim C9: a successful join on a connection already bound to a different
room (r1, u1) overwrites the session binding to the new (roomId, uid) and
leaves room r1's registry entry untouched: no implicit leave of the old room. -/
theorem second_join_overwrites_session_no_implicit_leave (st : ServerState)
    (sid : Nat) (r1 u1 roomId uid0 name0 peerId0 : Str)
    (hb1 : (st.conns sid).dataRid = some r1)
    (hb2 : (st.conns sid).dataUid = some u1)
    (h1 : (normRoomId roomId).isEmpty = false)
    (h2 : (jsTrim uid0).isEmpty = false)
    (h3 : (jsTrim peerId0).isEmpty = false)
    (hne : r1 ≠ normRoomId roomId) :
    ((handleJoin st sid roomId uid0 name0 peerId0).1.conns sid).dataRid =
      some (normRoomId roomId) ∧
    ((handleJoin st sid roomId uid0 name0 peerId0).1.conns sid).dataUid =
      some (jsTrim uid0) ∧
    mapGet (handleJoin st sid roomId uid0 name0 peerId0).1.rooms r1 =
      mapGet st.rooms r1 := by
  refine ⟨?_, ?_, ?_⟩ <;> simp [handleJoin, h1, h2, h3, setConn]
  exact mapGet_mapSet_ne _ _ hne

theorem second_join_overwrites_session_no_implicit_leave_witness :
    ((handleJoin (run [Event.join 0 (str "A") (str "u1") (str "n1") (str "q1")])
        0 (str "B") (str "u2") (str "n2") (str "q2")).1.conns 0).dataRid =
      some (normRoomId (str "B")) ∧
    ((handleJoin (run [Event.join 0 (str "A") (str "u1") (str "n1") (str "q1")])
        0 (str "B") (str "u2") (str "n2") (str "q2")).1.conns 0).dataUid =
      some (jsTrim (str "u2")) ∧
    mapGet (handleJoin (run [Event.join 0 (str "A") (str "u1") (str "n1") (str "q1")])
        0 (str "B") (str "u2") (str "n2") (str "q2")).1.rooms (str "A") =
      mapGet (run [Event.join 0 (str "A") (str "u1") (str "n1") (str "q1")]).rooms
        (str "A") :=
  second_join_overwrites_session_no_implicit_leave
    (run [Event.join 0 (str "A") (str "u1") (str "n1") (str "q1")])
    0 (str "A") (str "u1") (str "B") (str "u2") (str "n2") (str "q2")
    (by decide) (by decide) (by decide) (by decide) (by decide) (by decide)

/-- Claim C5: an explicit leave with non-empty normalized roomId and trimmed
uid is a complete no-op when the room does not exist; when the room exists it
broadcasts user-left (whether or not a record was removed) and detaches the
connection from the transport room group, and a leave for a non-member uid
leaves the registry unchanged. -/
theorem leave_broadcast_and_detach (st : ServerState) (sid : Nat)
    (roomId uid0 : Str)
    (h1 : (normRoomId roomId).isEmpty = false)
    (h2 : (jsTrim uid0).isEmpty = false) :
    (mapGet st.rooms (normRoomId roomId) = none →
      handleLeave st sid roomId uid0 = (st, [])) ∧
    ∀ m, mapGet st.rooms (normRoomId roomId) = some m →
      (handleLeave st sid roomId uid0).2 =
        [Out.userLeft (normRoomId roomId) sid (jsTrim uid0)] ∧
      ((handleLeave st sid roomId uid0).1.conns sid).groups =
        ((st.conns sid).groups).erase (normRoomId roomId) ∧
      (jsTrim uid0 ∉ keys m → m.isEmpty = false →
        (handleLeave st sid roomId uid0).1.rooms = st.rooms) := by
  constructor
  · intro hnone
    simp [handleLeave, h1, h2, hnone]
  · intro m hm
    refine ⟨?_, ?_, ?_⟩
    · simp [handleLeave, h1, h2, hm]
    · simp [handleLeave, h1, h2, hm, setConn]
    · intro hnm hne
      have hdel : mapDelete m (jsTrim uid0) = m := mapDelete_of_not_mem hnm
      simp [handleLeave, h1, h2, hm, setConn, hdel, hne,
        mapSet_of_get_eq hm]

theorem leave_broadcast_and_detach_witness :
    (mapGet (⟨[(str "R", [(str "u", ⟨str "u", str "n", str "p"⟩)])],
        fun _ => Conn.start⟩ : ServerState).rooms (normRoomId (str "r")) = none →
      handleLeave ⟨[(str "R", [(str "u", ⟨str "u", str "n", str "p"⟩)])],
        fun _ => Conn.start⟩ 0 (str "r") (str "w") =
        (⟨[(str "R", [(str "u", ⟨str "u", str "n", str "p"⟩)])],
          fun _ => Conn.start⟩, [])) ∧
    ∀ m, mapGet (⟨[(str "R", [(str "u", ⟨str "u", str "n", str "p"⟩)])],
        fun _ => Conn.start⟩ : ServerState).rooms (normRoomId (str "r")) = some m →
      (handleLeave ⟨[(str "R", [(str "u", ⟨str "u", str "n", str "p"⟩)])],
        fun _ => Conn.start⟩ 0 (str "r") (str "w")).2 =
        [Out.userLeft (normRoomId (str "r")) 0 (jsTrim (str "w"))] ∧
      ((handleLeave ⟨[(str "R", [(str "u", ⟨str "u", str "n", str "p"⟩)])],
        fun _ => Conn.start⟩ 0 (str "r") (str "w")).1.conns 0).groups =
        (((⟨[(str "R", [(str "u", ⟨str "u", str "n", str "p"⟩)])],
          fun _ => Conn.start⟩ : ServerState).conns 0).groups).erase
          (normRoomId (str "r")) ∧
      (jsTrim (str "w") ∉ keys m → m.isEmpty = false →
        (handleLeave ⟨[(str "R", [(str "u", ⟨str "u", str "n", str "p"⟩)])],
          fun _ => Conn.start⟩ 0 (str "r") (str "w")).1.rooms =
          (⟨[(str "R", [(str "u", ⟨str "u", str "n", str "p"⟩)])],
            fun _ => Conn.start⟩ : ServerState).rooms) :=
  leave_broadcast_and_detach
    ⟨[(str "R", [(str "u", ⟨str "u", str "n", str "p"⟩)])], fun _ => Conn.start⟩
    0 (str "r") (str "w") (by decide) (by decide)

/-- Claim C1: in every reachable state, a roomId key is present in the
registry if and only if its room map is non-empty (so a room emptied by a
leave or disconnect is absent from the registry). -/
theorem registry_key_iff_room_nonempty (es : List Event) (rid : Str) :
    (∃ m, mapGet (run es).rooms rid = some m) ↔
    (∃ m, mapGet (run es).rooms rid = some m ∧ m.isEmpty = false) := by
  constructor
  · rintro ⟨m, hm⟩
    obtain ⟨_, hall⟩ := invRooms_run es
    obtain ⟨_, _, h3, _, _⟩ := hall _ (mapGet_mem hm)
    exact ⟨m, hm, h3⟩
  · rintro ⟨m, hm, _⟩
    exact ⟨m, hm⟩

/-- Claim C10: in every reachable state, every stored roomId key is a
non-empty fixed point of normalization, and inside every room each key
equals the `uid` field of the record stored under it. -/
theorem registry_keys_normalized_and_uid_keyed (es : List Event) :
    ∀ p ∈ (run es).rooms, (normRoomId p.1 = p.1 ∧ p.1.isEmpty = false) ∧
      ∀ q ∈ p.2, q.2.uid = q.1 := by
  intro p hp
  obtain ⟨_, hall⟩ := invRooms_run es
  obtain ⟨h1, h2, _, _, h5⟩ := hall p hp
  exact ⟨⟨h1, h2⟩, h5⟩

theorem registry_keys_normalized_and_uid_keyed_witness :
    (normRoomId (str "R") = str "R" ∧ (str "R").isEmpty = false) ∧
    ∀ q ∈ [(str "u", (⟨str "u", str "n", str "p"⟩ : VideoUser))], q.2.uid = q.1 :=
  registry_keys_normalized_and_uid_keyed
    [Event.join 0 (str " r ") (str "u") (str "n") (str "p")]
    (str "R", [(str "u", ⟨str "u", str "n", str "p"⟩)]) (by decide)

/-- In a room map with distinct keys whose records carry their key as `uid`,
the values of the map after upserting `u` under its own uid contain exactly
one record with that uid, namely `u`. -/
theorem filter_values_mapSet (uid : Str) (u : VideoUser) (hu : u.uid = uid) :
    ∀ m : RoomMap, (∀ q ∈ m, q.2.uid = q.1) → (keys m).Nodup →
      ((mapSet m uid u).map Prod.snd).filter (fun w => decide (w.uid = uid)) =
        [u] := by
  intro m
  induction m with
  | nil =>
    intro _ _
    simp [mapSet, hu]
  | cons q t ih =>
    intro hwf hnd
    obtain ⟨k, v⟩ := q
    rw [keys_cons] at hnd
    have hnd' := List.nodup_cons.mp hnd
    by_cases hk : k = uid
    · subst hk
      have hfilt : (t.map Prod.snd).filter (fun w => decide (w.uid = k)) = [] := by
        rw [List.filter_eq_nil_iff]
        intro w hw
        obtain ⟨q', hq', hqw⟩ := List.mem_map.mp hw
        have hq1 : q'.2.uid = q'.1 := hwf q' (List.mem_cons_of_mem _ hq')
        have hkey : q'.1 ∈ keys t := List.mem_map_of_mem Prod.fst hq'
        rw [← hqw, hq1]
        simp only [decide_eq_true_eq]
        intro he
        rw [he] at hkey
        exact hnd'.1 hkey
      simp [mapSet, hu, hfilt]
    · have hv : v.uid = k := hwf (k, v) (List.mem_cons_self _ _)
      have hwf' : ∀ q ∈ t, q.2.uid = q.1 := fun q hq =>
        hwf q (List.mem_cons_of_mem _ hq)
      have ihc := ih hwf' hnd'.2
      simp [mapSet, hk, hv, ihc, Ne.symm hk]

/-- Claim C3: for every valid join on a reachable state, the positive ack
lists the joining uid exactly once, carrying the trimmed display name
(defaulted to "Guest" when blank) and the trimmed peerId, and the
user-joined broadcast carries the same values. -/
theorem join_ack_contains_joiner_once (es : List Event) (sid : Nat)
    (roomId uid0 name0 peerId0 : Str)
    (h1 : (normRoomId roomId).isEmpty = false)
    (h2 : (jsTrim uid0).isEmpty = false)
    (h3 : (jsTrim peerId0).isEmpty = false) :
    ∃ peers,
      (handleJoin (run es) sid roomId uid0 name0 peerId0).2 =
        [Out.ack sid (VideoJoinAck.ok peers),
         Out.userJoined (normRoomId roomId) sid (jsTrim uid0) (dispName name0)
           (jsTrim peerId0)] ∧
      peers.filter (fun w => decide (w.uid = jsTrim uid0)) =
        [⟨jsTrim uid0, dispName name0, jsTrim peerId0⟩] := by
  refine ⟨(mapSet ((mapGet (run es).rooms (normRoomId roomId)).getD [])
      (jsTrim uid0) ⟨jsTrim uid0, dispName name0, jsTrim peerId0⟩).map Prod.snd,
    ?_, ?_⟩
  · simp [handleJoin, h1, h2, h3]
  · apply filter_values_mapSet (jsTrim uid0)
      ⟨jsTrim uid0, dispName name0, jsTrim peerId0⟩ rfl
    · cases hg0 : mapGet (run es).rooms (normRoomId roomId) with
      | none =>
        intro q hq
        simp at hq
      | some m0 =>
        obtain ⟨_, hall⟩ := invRooms_run es
        obtain ⟨_, _, _, _, h5⟩ := hall _ (mapGet_mem hg0)
        intro q hq
        exact h5 q hq
    · cases hg0 : mapGet (run es).rooms (normRoomId roomId) with
      | none => simp [keys]
      | some m0 =>
        obtain ⟨_, hall⟩ := invRooms_run es
        obtain ⟨_, _, _, h4, _⟩ := hall _ (mapGet_mem hg0)
        exact h4

theorem join_ack_contains_joiner_once_witness :
    ∃ peers,
      (handleJoin (run []) 0 (str "room1") (str " alice ") (str "  ")
          (str "pc")).2 =
        [Out.ack 0 (VideoJoinAck.ok peers),
         Out.userJoined (normRoomId (str "room1")) 0 (jsTrim (str " alice "))
           (dispName (str "  ")) (jsTrim (str "pc"))] ∧
      peers.filter (fun w => decide (w.uid = jsTrim (str " alice "))) =
        [⟨jsTrim (str " alice "), dispName (str "  "), jsTrim (str "pc")⟩] :=
  join_ack_contains_joiner_once [] 0 (str "room1") (str " alice ") (str "  ")
    (str "pc") (by decide) (by decide) (by decide)

/-- Claim C4: a second successful join with the same normalized roomId and
uid replaces the stored record with the new displayName/peerId and leaves
the room's key set and member count unchanged: an upsert, not an error. -/
theorem rejoin_upsert_preserves_membership (es : List Event) (sid : Nat)
    (roomId uid0 name0 peerId0 : Str) (m : RoomMap)
    (hm : mapGet (run es).rooms (normRoomId roomId) = some m)
    (hmem : jsTrim uid0 ∈ keys m)
    (h2 : (jsTrim uid0).isEmpty = false)
    (h3 : (jsTrim peerId0).isEmpty = false) :
    mapGet (handleJoin (run es) sid roomId uid0 name0 peerId0).1.rooms
        (normRoomId roomId) =
      some (mapSet m (jsTrim uid0)
        ⟨jsTrim uid0, dispName name0, jsTrim peerId0⟩) ∧
    mapGet (mapSet m (jsTrim uid0) ⟨jsTrim uid0, dispName name0, jsTrim peerId0⟩)
        (jsTrim uid0) =
      some ⟨jsTrim uid0, dispName name0, jsTrim peerId0⟩ ∧
    keys (mapSet m (jsTrim uid0) ⟨jsTrim uid0, dispName name0, jsTrim peerId0⟩) =
      keys m ∧
    (mapSet m (jsTrim uid0)
      ⟨jsTrim uid0, dispName name0, jsTrim peerId0⟩).length = m.length := by
  have h1 : (normRoomId roomId).isEmpty = false := by
    obtain ⟨_, hall⟩ := invRooms_run es
    obtain ⟨_, hh, _, _, _⟩ := hall _ (mapGet_mem hm)
    exact hh
  refine ⟨?_, mapGet_mapSet_self _ _ _, keys_mapSet_of_mem _ hmem,
    length_mapSet_of_mem _ hmem⟩
  simp [handleJoin, h1, h2, h3, hm, setConn]
  exact mapGet_mapSet_self _ _ _

theorem rejoin_upsert_preserves_membership_witness :
    mapGet (handleJoin
        (run [Event.join 0 (str "X1") (str "u1") (str "Bob") (str "q")])
        1 (str "x1 ") (str "u1") (str "Carol") (str "q2")).1.rooms
        (normRoomId (str "x1 ")) =
      some (mapSet [(str "u1", (⟨str "u1", str "Bob", str "q"⟩ : VideoUser))]
        (jsTrim (str "u1"))
        ⟨jsTrim (str "u1"), dispName (str "Carol"), jsTrim (str "q2")⟩) ∧
    mapGet (mapSet [(str "u1", (⟨str "u1", str "Bob", str "q"⟩ : VideoUser))]
        (jsTrim (str "u1"))
        ⟨jsTrim (str "u1"), dispName (str "Carol"), jsTrim (str "q2")⟩)
        (jsTrim (str "u1")) =
      some ⟨jsTrim (str "u1"), dispName (str "Carol"), jsTrim (str "q2")⟩ ∧
    keys (mapSet [(str "u1", (⟨str "u1", str "Bob", str "q"⟩ : VideoUser))]
        (jsTrim (str "u1"))
        ⟨jsTrim (str "u1"), dispName (str "Carol"), jsTrim (str "q2")⟩) =
      keys [(str "u1", (⟨str "u1", str "Bob", str "q"⟩ : VideoUser))] ∧
    (mapSet [(str "u1", (⟨str "u1", str "Bob", str "q"⟩ : VideoUser))]
      (jsTrim (str "u1"))
      ⟨jsTrim (str "u1"), dispName (str "Carol"), jsTrim (str "q2")⟩).length =
      ([(str "u1", (⟨str "u1", str "Bob", str "q"⟩ : VideoUser))]).length :=
  rejoin_upsert_preserves_membership
    [Event.join 0 (str "X1") (str "u1") (str "Bob") (str "q")]
    1 (str "x1 ") (str "u1") (str "Carol") (str "q2")
    [(str "u1", ⟨str "u1", str "Bob", str "q"⟩)]
    (by decide) (by decide) (by decide) (by decide)

/-- Claim C6 as stated is false on the code: the video:leave handler never
clears `socket.data`, so after an explicit leave the connection's session
still holds the joined (roomId, uid), and a later disconnect of that
connection re-broadcasts user-left when the room still exists. Concretely:
socket 0 and socket 1 join room R, socket 0 leaves explicitly, and socket
0's disconnect still finds session (R, a) and emits a second user-left. -/
theorem leave_does_not_clear_session_cex :
    ((run [Event.join 0 (str "R") (str "a") (str "n1") (str "p1"),
        Event.join 1 (str "R") (str "b") (str "n2") (str "p2"),
        Event.leave 0 (str "R") (str "a")]).conns 0).dataRid = some (str "R") ∧
    ((run [Event.join 0 (str "R") (str "a") (str "n1") (str "p1"),
        Event.join 1 (str "R") (str "b") (str "n2") (str "p2"),
        Event.leave 0 (str "R") (str "a")]).conns 0).dataUid = some (str "a") ∧
    (handleDisconnect (run [Event.join 0 (str "R") (str "a") (str "n1") (str "p1"),
        Event.join 1 (str "R") (str "b") (str "n2") (str "p2"),
        Event.leave 0 (str "R") (str "a")]) 0).2 =
      [Out.userLeft (str "R") 0 (str "a")] := by
  decide

/-- Claim C6 amended: the explicit leave handler leaves the connection's
session binding unchanged (it is not cleared); a subsequent disconnect that
finds the same (roomId, uid) binding performs no further registry removal —
the registry is exactly the post-leave registry — although it may
re-broadcast user-left when the room still exists. -/
theorem leave_session_persists_disconnect_registry_noop (es : List Event)
    (sid : Nat) (roomId uid0 : Str)
    (h1 : (normRoomId roomId).isEmpty = false)
    (h2 : (jsTrim uid0).isEmpty = false) :
    (((handleLeave (run es) sid roomId uid0).1.conns sid).dataRid =
        ((run es).conns sid).dataRid ∧
     ((handleLeave (run es) sid roomId uid0).1.conns sid).dataUid =
        ((run es).conns sid).dataUid) ∧
    (((run es).conns sid).dataRid = some (normRoomId roomId) →
     ((run es).conns sid).dataUid = some (jsTrim uid0) →
     (handleDisconnect (handleLeave (run es) sid roomId uid0).1 sid).1.rooms =
       (handleLeave (run es) sid roomId uid0).1.rooms) := by
  obtain ⟨hndR, hall⟩ := invRooms_run es
  cases hg0 : mapGet (run es).rooms (normRoomId roomId) with
  | none =>
    have hLeq : handleLeave (run es) sid roomId uid0 = ((run es), []) := by
      simp [handleLeave, h1, h2, hg0]
    rw [hLeq]
    refine ⟨⟨rfl, rfl⟩, ?_⟩
    intro hr hu
    simp [handleDisconnect, hr, hu, h1, h2, hg0]
  | some map =>
    have hLeq : handleLeave (run es) sid roomId uid0 =
        (setConn { run es with rooms :=
            (if (mapDelete map (jsTrim uid0)).isEmpty
              then (mapDelete (run es).rooms (normRoomId roomId))
              else (mapSet (run es).rooms (normRoomId roomId)
                (mapDelete map (jsTrim uid0)))) }
          sid ⟨((run es).conns sid).dataRid, ((run es).conns sid).dataUid,
            (((run es).conns sid).groups).erase (normRoomId roomId)⟩,
         [Out.userLeft (normRoomId roomId) sid (jsTrim uid0)]) := by
      simp [handleLeave, h1, h2, hg0]
    rw [hLeq]
    refine ⟨⟨by simp [setConn], by simp [setConn]⟩, ?_⟩
    intro hr hu
    obtain ⟨_, _, _, hnd4, _⟩ := hall _ (mapGet_mem hg0)
    by_cases he : (mapDelete map (jsTrim uid0)).isEmpty
    · have hgnone : mapGet (mapDelete (run es).rooms (normRoomId roomId))
          (normRoomId roomId) = none :=
        mapGet_mapDelete_self _ hndR
      simp [handleDisconnect, setConn, hr, hu, h1, h2, he, hgnone]
    · rw [Bool.not_eq_true] at he
      have hgsome : mapGet (mapSet (run es).rooms (normRoomId roomId)
          (mapDelete map (jsTrim uid0))) (normRoomId roomId) =
          some (mapDelete map (jsTrim uid0)) :=
        mapGet_mapSet_self _ _ _
      have hnotin : jsTrim uid0 ∉ keys (mapDelete map (jsTrim uid0)) := by
        rw [keys_mapDelete]
        exact hnd4.not_mem_erase
      have hdel2 : mapDelete (mapDelete map (jsTrim uid0)) (jsTrim uid0) =
          mapDelete map (jsTrim uid0) :=
        mapDelete_of_not_mem hnotin
      have hself : mapSet (mapSet (run es).rooms (normRoomId roomId)
            (mapDelete map (jsTrim uid0))) (normRoomId roomId)
            (mapDelete map (jsTrim uid0)) =
          mapSet (run es).rooms (normRoomId roomId)
            (mapDelete map (jsTrim uid0)) :=
        mapSet_of_get_eq hgsome
      simp [handleDisconnect, setConn, hr, hu, h1, h2, he, hgsome, hdel2, hself]

theorem leave_session_persists_disconnect_registry_noop_witness :
    (((handleLeave (run [Event.join 0 (str "R") (str "a") (str "n1") (str "p1"),
          Event.join 1 (str "R") (str "b") (str "n2") (str "p2")])
          0 (str "R") (str "a")).1.conns 0).dataRid =
        ((run [Event.join 0 (str "R") (str "a") (str "n1") (str "p1"),
          Event.join 1 (str "R") (str "b") (str "n2") (str "p2")]).conns 0).dataRid ∧
     ((handleLeave (run [Event.join 0 (str "R") (str "a") (str "n1") (str "p1"),
          Event.join 1 (str "R") (str "b") (str "n2") (str "p2")])
          0 (str "R") (str "a")).1.conns 0).dataUid =
        ((run [Event.join 0 (str "R") (str "a") (str "n1") (str "p1"),
          Event.join 1 (str "R") (str "b") (str "n2") (str "p2")]).conns 0).dataUid) ∧
    (((run [Event.join 0 (str "R") (str "a") (str "n1") (str "p1"),
          Event.join 1 (str "R") (str "b") (str "n2") (str "p2")]).conns 0).dataRid =
        some (normRoomId (str "R")) →
     ((run [Event.join 0 (str "R") (str "a") (str "n1") (str "p1"),
          Event.join 1 (str "R") (str "b") (str "n2") (str "p2")]).conns 0).dataUid =
        some (jsTrim (str "a")) →
     (handleDisconnect (handleLeave
         (run [Event.join 0 (str "R") (str "a") (str "n1") (str "p1"),
           Event.join 1 (str "R") (str "b") (str "n2") (str "p2")])
         0 (str "R") (str "a")).1 0).1.rooms =
       (handleLeave (run [Event.join 0 (str "R") (str "a") (str "n1") (str "p1"),
           Event.join 1 (str "R") (str "b") (str "n2") (str "p2")])
         0 (str "R") (str "a")).1.rooms) :=
  leave_session_persists_disconnect_registry_noop
    [Event.join 0 (str "R") (str "a") (str "n1") (str "p1"),
     Event.join 1 (str "R") (str "b") (str "n2") (str "p2")]
    0 (str "R") (str "a") (by decide) (by decide)

end VideoServer
